import Mathlib

/-!
Verification of the pynimcodec Compact Binary Codec (CBC) against its
natural-language specification.

The definitions below are a shallow embedding of the Python source:

* `pynimcodec/bitman.py` — bit-level buffer engine (`extract_from_buffer`,
  `append_bits_to_buffer`, `append_bytes_to_buffer`, `BitArray.from_int`);
* `pynimcodec/cbc/field/*.py` — field codecs (uint, string, data,
  bitmaskarray);
* `pynimcodec/cbc/message/base_message.py` — `Message.message_key` setter,
  `Messages.append`, `decode_message`;
* `pynimcodec/cbc/codec/base_codec.py` — `CodecList.__setitem__`.

Buffers (Python `bytes`/`bytearray`) are modelled as `List Nat` with each
element `< 256`; Python exceptions are modelled as `Except.error` carrying the
exception message.  Functions that mutate their `bytearray` argument in place
are embedded in state-passing style: they return the final state of the
buffer of the caller alongside the result, so that partial mutation before a raised
exception is observable.
-/

namespace Pynimcodec

/-- Python `int.from_bytes` with big-endian byte order. -/
def from_bytes (l : List Nat) : Nat := l.foldl (fun a b => 256 * a + b) 0

/-- Bit `i` of a byte buffer, bits numbered MSB-first within each byte
(the numbering used throughout the spec, §4.1). -/
def bufBit (buffer : List Nat) (i : Nat) : Bool :=
  Nat.testBit (buffer.getD (i / 8) 0) (7 - i % 8)

/-- The integer formed by the `n` bits of `buffer` starting at bit `offset`,
MSB first (the reading of `extract` in the spec, §4.1). -/
def bitsVal (buffer : List Nat) (offset : Nat) : Nat → Nat
  | 0 => 0
  | n + 1 => 2 * bitsVal buffer offset n + (if bufBit buffer (offset + n) then 1 else 0)

/-- Body of `bitman.extract_from_buffer` after the validation, source lines
143-151: slice the covered bytes, shift out trailing bits, mask, and
sign-extend when requested. -/
def extractCore (buffer : List Nat) (offset l : Nat) (signed : Bool) :
    Except String Int :=
  if offset + l > buffer.length * 8 then
    .error "Bit offset + length exceeds buffer size."
  else
    let startByte := offset / 8
    let endByte := (offset + l - 1) / 8 + 1
    let bitStart := offset % 8
    let raw := from_bytes ((buffer.drop startByte).take (endByte - startByte))
    let totalBits := (endByte - startByte) * 8
    let shift := totalBits - bitStart - l
    let extracted := (raw >>> shift) &&& (2 ^ l - 1)
    if signed && extracted.testBit (l - 1) then
      .ok ((extracted : Int) - 2 ^ l)
    else
      .ok (extracted : Int)

/-- Embedding of `bitman.extract_from_buffer` (lines 111-154), without the `as_buffer`
re-packaging.  `length = none` models Python `length=None` (read to the end of
the buffer). -/
def extract_from_buffer (buffer : List Nat) (offset : Nat) (length : Option Nat)
    (signed : Bool) : Except String Int :=
  if offset ≥ buffer.length * 8 then .error "Invalid offset"
  else
    match length with
    | some l => if l < 1 then .error "Invalid length" else extractCore buffer offset l signed
    | none => extractCore buffer offset (buffer.length * 8 - offset) signed

/-- Write one bit at bit position `pos` (MSB-first in each byte), as in the
loop body of `append_bits_to_buffer` (lines 192-200). -/
def writeBit (buffer : List Nat) (pos : Nat) (bit : Nat) : List Nat :=
  let byteIdx := pos / 8
  let mask := 1 <<< (7 - pos % 8)
  if bit = 1 then buffer.set byteIdx (buffer.getD byteIdx 0 ||| mask)
  else buffer.set byteIdx (buffer.getD byteIdx 0 &&& (255 ^^^ mask))

/-- The bit-writing loop of `append_bits_to_buffer`. -/
def writeBits : List Nat → Nat → List Nat → List Nat
  | buffer, _, [] => buffer
  | buffer, offset, b :: rest => writeBits (writeBit buffer offset b) (offset + 1) rest

/-- Python `while len(buffer) < n: buffer.append(0)`. -/
def padTo (buffer : List Nat) (n : Nat) : List Nat :=
  buffer ++ List.replicate (n - buffer.length) 0

/-- Embedding of `bitman.append_bits_to_buffer` (lines 157-201).  All of its own validation
happens before any write, so on `error` the buffer of the caller is untouched. -/
def append_bits_to_buffer (bits : List Nat) (buffer : List Nat) (offset : Nat) :
    Except String (List Nat) :=
  if ¬ bits.all (fun b => b == 0 || b == 1) then .error "Invalid BitArray"
  else
    let buffer := if buffer.length = 0 then [0] else buffer
    if offset > buffer.length * 8 then
      .error "offset exceeds the current buffer size."
    else
      let requiredBytes := (offset + bits.length + 7) / 8
      .ok (writeBits (padTo buffer requiredBytes) offset bits)

/-- The per-byte loop of `append_bytes_to_buffer` (lines 234-251).  The bit
offset within a byte is invariant across iterations
(`(bit_offset_within_byte + 8) % 8`). -/
def appendBytesLoop : List Nat → List Nat → Nat → Nat → List Nat
  | [], buffer, _, _ => buffer
  | byte :: rest, buffer, byteOffset, bitOff =>
    if bitOff = 0 then
      let buffer := if byteOffset < buffer.length then buffer.set byteOffset byte
                    else buffer ++ [byte]
      appendBytesLoop rest buffer (byteOffset + 1) bitOff
    else
      let cur := (byte >>> bitOff) &&& 255
      let nxt := (byte <<< (8 - bitOff)) &&& 255
      let buffer := buffer.set byteOffset (buffer.getD byteOffset 0 ||| cur)
      let buffer := if byteOffset + 1 ≥ buffer.length then buffer ++ [0] else buffer
      let buffer := buffer.set (byteOffset + 1) (buffer.getD (byteOffset + 1) 0 ||| nxt)
      appendBytesLoop rest buffer (byteOffset + 1) bitOff

/-- Embedding of `bitman.append_bytes_to_buffer` (lines 204-252). -/
def append_bytes_to_buffer (data : List Nat) (buffer : List Nat) (offset : Nat) :
    List Nat :=
  let byteOffset := offset / 8
  let bitOff := offset % 8
  appendBytesLoop data (padTo buffer (byteOffset + 1)) byteOffset bitOff

/-- Python `[(n >> (L-1-i)) & 1 for i in range(L)]`: the `L` binary digits of `n`,
MSB first, possibly with leading zeros. -/
def natBinFixed (n L : Nat) : List Nat :=
  (List.range L).map (fun i => (n >>> (L - 1 - i)) &&& 1)

/-- Drop leading zero digits. -/
def stripZeros : List Nat → List Nat
  | [] => []
  | 0 :: t => stripZeros t
  | l => l

/-- Python `bin(n)[2:]` as a digit list: the canonical binary digits of `n`,
MSB first, with `bin(0)[2:] = "0"`. -/
def natBin (n : Nat) : List Nat :=
  if n = 0 then [0] else stripZeros (natBinFixed n (n + 1))

/-- Python `n.bit_length()` for `n ≥ 0`. -/
def natBitLen (n : Nat) : Nat :=
  if n = 0 then 0 else (stripZeros (natBinFixed n (n + 1))).length

/-- Embedding of `BitArray.from_int` (bitman.py lines 47-76).  `length = none` models the
default `length=None`: `length = value.bit_length() + (1 if value < 0 else 0)`,
which is then rejected when not positive. -/
def bitArray_from_int (value : Int) (length : Option Nat) :
    Except String (List Nat) :=
  let len : Nat :=
    match length with
    | some l => l
    | none => natBitLen value.natAbs + (if value < 0 then 1 else 0)
  if len = 0 then .error "Length must be a positive integer."
  else
    let value' : Int := if value < 0 then 2 ^ len + value else value
    let bits := natBin value'.toNat
    if bits.length > len then .error "Length too small to represent the value."
    else .ok (List.replicate (len - bits.length) 0 ++ bits)

/-- Modelled from the spec: the repository file `cbc/field/field_length.py`
(symbol `encode_field_length`) is not under src/; §4.2 LengthPrefix: a 1-bit
extension flag then 7 bits (flag 0, `length < 128`) or 15 bits (flag 1), with
maximum representable length `2^15 - 1 = 32767`. -/
def encode_field_length (length : Nat) (buffer : List Nat) (offset : Nat) :
    Except String (List Nat × Nat) :=
  if length < 128 then do
    let bits ← bitArray_from_int length (some 8)
    let b ← append_bits_to_buffer bits buffer offset
    pure (b, offset + 8)
  else if length < 32768 then do
    let bits ← bitArray_from_int (32768 + length) (some 16)
    let b ← append_bits_to_buffer bits buffer offset
    pure (b, offset + 16)
  else .error "Invalid length exceeds 32767"

/-- Modelled from the spec: the repository file `cbc/field/field_length.py`
(symbol `decode_field_length`) is not under src/; §4.2: read the flag, then 7
or 15 bits, advancing the bit cursor by 8 or 16. -/
def decode_field_length (buffer : List Nat) (offset : Nat) :
    Except String (Nat × Nat) := do
  let flag ← extract_from_buffer buffer offset (some 1) false
  if flag = 0 then do
    let l ← extract_from_buffer buffer (offset + 1) (some 7) false
    pure (l.toNat, offset + 8)
  else do
    let l ← extract_from_buffer buffer (offset + 1) (some 15) false
    pure (l.toNat, offset + 16)

/-- UTF-8 encoding of one character (Python `str.encode()`, per byte). -/
def utf8Bytes (c : Char) : List Nat :=
  let n := c.toNat
  if n < 0x80 then [n]
  else if n < 0x800 then [0xC0 ||| (n >>> 6), 0x80 ||| (n &&& 0x3F)]
  else if n < 0x10000 then
    [0xE0 ||| (n >>> 12), 0x80 ||| ((n >>> 6) &&& 0x3F), 0x80 ||| (n &&& 0x3F)]
  else
    [0xF0 ||| (n >>> 18), 0x80 ||| ((n >>> 12) &&& 0x3F),
     0x80 ||| ((n >>> 6) &&& 0x3F), 0x80 ||| (n &&& 0x3F)]

/-- Embedding of `string_field.encode` (string_field.py lines 99-133): truncate to `size`
characters, then pad with spaces when `fixed`, otherwise emit a length prefix;
finally append the UTF-8 bytes. -/
def sf_encode (size : Nat) (fixed : Bool) (value : List Char)
    (buffer : List Nat) (offset : Nat) : Except String (List Nat × Nat) := do
  let value := if value.length > size then value.take size else value
  let (value, buffer, offset) ←
    if fixed then
      pure (value ++ List.replicate (size - value.length) ' ', buffer, offset)
    else do
      let (b, o) ← encode_field_length value.length buffer offset
      pure (value, b, o)
  let bytes := value.foldr (fun c acc => utf8Bytes c ++ acc) []
  pure (append_bytes_to_buffer bytes buffer offset, offset + value.length * 8)

/-- Embedding of `data_field.encode` (data_field.py lines 99-134): truncate to `size`
bytes, then zero-pad when `fixed`, otherwise emit a length prefix; finally
append the bytes. -/
def df_encode (size : Nat) (fixed : Bool) (value : List Nat)
    (buffer : List Nat) (offset : Nat) : Except String (List Nat × Nat) := do
  let data := if value.length > size then value.take size else value
  let (data, buffer, offset) ←
    if fixed then
      pure (data ++ List.replicate (size - data.length) 0, buffer, offset)
    else do
      let (b, o) ← encode_field_length data.length buffer offset
      pure (data, b, o)
  pure (append_bytes_to_buffer data buffer offset, offset + data.length * 8)

/-- Embedding of `data_field.decode` (data_field.py lines 74-96).  Note the source calls
`extract_from_buffer` without `as_buffer=True`, so the decoded value is the
*integer* formed by the data bits, not a byte string. -/
def df_decode (size : Nat) (fixed : Bool) (buffer : List Nat) (offset : Nat) :
    Except String (Int × Nat) := do
  let (length, off) ←
    if fixed then pure (size, offset)
    else decode_field_length buffer offset
  let value ← extract_from_buffer buffer off (some (length * 8)) false
  pure (value, off + length * 8)

/-- Embedding of `uint_field.encode` (uint_field.py lines 121-155) for a field without
`encalc`.  The value is what Python passes at the call site: either an `int`
or (inside `bitmaskarray_field.encode`) a `str`, which fails the
`isinstance` check with a ValueError carrying the message Invalid value. -/
def uint_encode_val (size : Nat) (v : Int ⊕ String) (buffer : List Nat)
    (offset : Nat) : Except String (List Nat × Nat) :=
  match v with
  | .inr _ => .error "Invalid value."
  | .inl i =>
    if i < 0 then .error "Invalid value."
    else if i > 2 ^ size - 1 then
      .error "Value too large to encode in size bits."
    else do
      let bits ← bitArray_from_int i (some size)
      let b ← append_bits_to_buffer bits buffer offset
      pure (b, offset + size)

/-- A column of a bitmaskarray (only uint columns occur in the claims). -/
structure BmaCol where
  name : String
  size : Nat
  optional : Bool

/-- A `bitmaskarray` field definition (bitmaskarray_field.py): `size` is the
bitmask width, `enum` maps (integer-parsed) bit positions to unique names. -/
structure BmaField where
  size : Nat
  enum : List (Nat × String)
  fields : List BmaCol

/-- Lines 173-179 of bitmaskarray_field.py: fold the keys of the value into a
bitmask, failing on a key not found among the enum values. -/
def bmaBitmask (enum : List (Nat × String)) : List String → Except String Nat
  | [] => .ok 0
  | k :: rest =>
    if enum.all (fun e => ¬ e.2 = k) then
      .error (k ++ " not found in field enumeration.")
    else do
      let m ← bmaBitmask enum rest
      pure (m + (enum.filter (fun e => e.2 = k)).foldl (fun a e => a + 2 ^ e.1) 0)

/-- The inner `for col in field.fields` loop of `bitmaskarray_field.encode`
(lines 183-197) for one row.  In the source the row variable is bound by
`for i, row in enumerate(value)`, i.e. to the *key string* of the value dict,
never to a row dict; presence bits for optional columns are written into the
buffer of the caller (mutating it) before the row is found unusable.  Returns
(result, final caller buffer): the result carries (tmp buffer, tmp offset,
caller offset) on success. -/
def bmaColLoop (cols : List BmaCol) (nfields : Nat) (i : Nat)
    (buffer : List Nat) (offset : Nat) (tmp : List Nat) (tmpOff : Nat) :
    Except String (List Nat × Nat × Nat) × List Nat :=
  match cols with
  | [] => (.ok (tmp, tmpOff, offset), buffer)
  | col :: rest =>
    -- `present = 1 if not isinstance(row, dict) or col.name in row else 0`:
    -- the row is a key string, so present is always 1.
    let step : Except String (List Nat × Nat) × List Nat :=
      if col.optional then
        match append_bits_to_buffer [1] buffer offset with
        | .error e => (.error e, buffer)
        | .ok b => (.ok (b, offset + 1), b)
      else (.ok (buffer, offset), buffer)
    match step with
    | (.error e, buf) => (.error e, buf)
    | (.ok (buffer, offset), _) =>
      -- `if not isinstance(row, dict)`: true, the row is the key string.
      if nfields > 1 then
        (.error ("Row " ++ toString i ++ " missing column keys"), buffer)
      else
        -- `tmp_buffer, tmp_offset = col.encode(row, tmp_buffer, tmp_offset)`
        -- with `row` a str: uint encode rejects it.
        match uint_encode_val col.size (.inr "row") tmp tmpOff with
        | .error e => (.error e, buffer)
        | .ok (tmp, tmpOff) => bmaColLoop rest nfields i buffer offset tmp tmpOff

/-- The outer `for i, row in enumerate(value)` loop of
`bitmaskarray_field.encode` (lines 182-197): iterating a dict yields its
*keys*. -/
def bmaRowLoop (flds : List BmaCol) (keys : List String) (i : Nat)
    (buffer : List Nat) (offset : Nat) (tmp : List Nat) (tmpOff : Nat) :
    Except String (List Nat × Nat × Nat) × List Nat :=
  match keys with
  | [] => (.ok (tmp, tmpOff, offset), buffer)
  | _ :: rest =>
    match bmaColLoop flds flds.length i buffer offset tmp tmpOff with
    | (.error e, buf) => (.error e, buf)
    | (.ok (tmp, tmpOff, offset), buf) =>
      bmaRowLoop flds rest (i + 1) buf offset tmp tmpOff

/-- Embedding of `bitmaskarray_field.encode` (lines 148-200), in state-passing style:
returns (result, final state of the bytearray of the caller).  Line 198 of the
source calls `append_bits_to_buffer(BitArray.from_int(bitmask, field.size))`
with the required `buffer` positional argument missing, so after the
argument expression is evaluated the call itself raises a `TypeError`. -/
def bma_encodeSt (field : BmaField) (value : List (String × List (List (String × Int))))
    (buffer : List Nat) (offset : Nat) :
    Except String (List Nat × Nat) × List Nat :=
  match bmaBitmask field.enum (value.map (·.1)) with
  | .error e => (.error e, buffer)
  | .ok bitmask =>
    match bmaRowLoop field.fields (value.map (·.1)) 0 buffer offset [] 0 with
    | (.error e, buf) => (.error e, buf)
    | (.ok (_tmp, _tmpOff, _offset), buf) =>
      match bitArray_from_int bitmask (some field.size) with
      | .error e => (.error e, buf)
      | .ok _bits =>
        (.error "append_bits_to_buffer missing 1 required positional argument: buffer",
         buf)

/-- Embedding of `bitmaskarray_field.decode` (lines 108-145).  Line 125 of the source is
`bitmask, offset = extract_from_buffer(buffer, offset, field.size)`, but
`extract_from_buffer` returns a plain `int`, so the tuple unpacking raises a
`TypeError` whenever the extraction itself succeeds. -/
def bma_decode (field : BmaField) (buffer : List Nat) (offset : Nat) :
    Except String (List (String × List (List (String × Int))) × Nat) := do
  let _v ← extract_from_buffer buffer offset (some field.size) false
  .error "cannot unpack non-iterable int object"

/-- The `Message.message_key` property setter (base_message.py lines 50-60),
called from `Message.__init__`.  Range conflicts are reported through
`warnings.warn`, which does not interrupt execution; the setter raises only
for values outside `0..65535`.  Returns the assigned key together with the
warnings emitted, in order. -/
def message_key_set (coap_compatible vsat_reserved nimo_compatible : Bool)
    (value : Int) : Except String (Nat × List String) :=
  if value < 0 ∨ 65536 ≤ value then
    .error "message_key must be a 16-bit unsigned integer"
  else
    let w1 := if coap_compatible ∧ value < 49152 then
      ["message_key conflict with CoAP compatibility"] else []
    let w2 := if ¬ vsat_reserved ∧ value > 65279 then
      ["message_key conflict with Viasat reserved range"] else []
    let w3 := if nimo_compatible ∧ (value < 32768 ∨ 65280 ≤ value) then
      ["message_key conflict with NIMO compatibility"] else []
    .ok (value.toNat, w1 ++ w2 ++ w3)

/-- A registry entry: the attributes of a `Message` that `Messages.append`
and `CodecList.append` inspect. -/
structure Msg where
  name : String
  message_key : Nat
  direction : Bool
deriving DecidableEq

/-- Embedding of `Messages.append` (base_message.py lines 110-124) followed by
`CodecList.append` (base_codec.py lines 96-112), in state-passing style:
the duplicate checks run before `list.append`, so on error the list is
unchanged. -/
def messages_appendSt (reg : List Msg) (m : Msg) :
    Except String Unit × List Msg :=
  if reg.any (fun mc => decide (mc.message_key = m.message_key) &&
                        decide (mc.direction = m.direction)) then
    (.error "Duplicate message_key for direction", reg)
  else if reg.any (fun o => decide (o.name = m.name)) then
    (.error ("Duplicate Message name " ++ m.name ++ " found"), reg)
  else (.ok (), reg ++ [m])

/-- Registries reachable by repeated `Messages.append` from the empty
registry. -/
inductive Reachable : List Msg → Prop where
  | nil : Reachable []
  | append (reg : List Msg) (m : Msg) (reg' : List Msg) :
      Reachable reg → messages_appendSt reg m = (.ok (), reg') → Reachable reg'

/-- A field of a message, as far as `decode_fields` inspects it (uint fields
suffice for the dispatch claims). -/
structure UField where
  name : String
  size : Nat
  optional : Bool

/-- Modelled from the spec: the repository file `cbc/field/base_field.py`
(symbol `decode_fields`) is not under src/; §4.5: walk the field list in
order, read a 1-bit presence flag before each optional field, decode each
present field (uint: read `size` bits big-endian, §4.4), and omit absent
optional fields from the result. -/
def decode_fields (fields : List UField) (buffer : List Nat) (offset : Nat) :
    Except String (List (String × Int) × Nat) :=
  match fields with
  | [] => .ok ([], offset)
  | f :: rest =>
    if f.optional then do
      let p ← extract_from_buffer buffer offset (some 1) false
      if p = 0 then decode_fields rest buffer (offset + 1)
      else do
        let v ← extract_from_buffer buffer (offset + 1) (some f.size) false
        let (tail, off) ← decode_fields rest buffer (offset + 1 + f.size)
        pure ((f.name, v) :: tail, off)
    else do
      let v ← extract_from_buffer buffer offset (some f.size) false
      let (tail, off) ← decode_fields rest buffer (offset + f.size)
      pure ((f.name, v) :: tail, off)

/-- A message codec, as far as `decode_message` inspects it. -/
structure MsgCodec where
  name : String
  message_key : Nat
  fields : List UField

/-- Embedding of `decode_message` (base_message.py lines 209-297) for the path where the
`message` codec is supplied (the registry-lookup branches are skipped) and
framing is raw or nim.  Under nim the key is read from the first two bytes
(line 279 rebinds `message_key`, discarding any caller value) and the payload
starts at bit 16.  The mismatch check (line 287) is
`if message_key and message_key != message.message_key`, so a key of `0`
(or `None`) is falsy and bypasses the check. -/
def decode_message (message : MsgCodec) (buffer : List Nat)
    (callerKey : Option Nat) (nim : Bool) :
    Except String (String × List (String × Int)) :=
  if buffer.length = 0 then .error "Invalid data buffer."
  else
    let keyOff : Option Nat × Nat :=
      if nim then (some (from_bytes (buffer.take 2)), 16) else (callerKey, 0)
    let mismatch :=
      match keyOff.1 with
      | some k => decide (k ≠ 0) && decide (k ≠ message.message_key)
      | none => false
    if mismatch then .error "Mismatch between provided/derived message_key"
    else do
      let (value, _) ← decode_fields message.fields buffer keyOff.2
      pure (message.name, value)

/-- A list member, as far as `CodecList.__setitem__` inspects it. -/
structure CodecItem where
  name : String
deriving DecidableEq

/-- Embedding of `CodecList.__setitem__` (base_codec.py lines 131-140), in state-passing
style, for a value of the correct codec class.  For a string key the loop
rebinds the local `n` to the matching index and then falls through without
writing (the `super().__setitem__` call sits in the `else` of the
`isinstance(n, str)` test); only an integer key stores the value. -/
def codecList_setitemSt (l : List CodecItem) (key : String ⊕ Nat)
    (value : CodecItem) : Except String Unit × List CodecItem :=
  match key with
  | .inl s =>
    -- `for i, o in enumerate(self): if o.name == n: n = i; break` — the
    -- rebound index is never used afterwards.
    let _i := l.findIdx (fun o => o.name = s)
    (.ok (), l)
  | .inr n =>
    if n < l.length then (.ok (), l.set n value)
    else (.error "list assignment index out of range", l)

/-! ## Helper lemmas about the byte/bit representation -/

lemma from_bytes_aux (l : List Nat) (a : Nat) :
    l.foldl (fun x y => 256 * x + y) a = a * 256 ^ l.length + from_bytes l := by
  induction l generalizing a with
  | nil => simp [from_bytes]
  | cons b t ih =>
    simp only [from_bytes, List.foldl_cons, List.length_cons] at *
    rw [ih (256 * a + b), ih (256 * 0 + b)]
    ring

lemma from_bytes_cons (b : Nat) (t : List Nat) :
    from_bytes (b :: t) = b * 256 ^ t.length + from_bytes t := by
  have h := from_bytes_aux t b
  simpa [from_bytes] using h

lemma from_bytes_lt (l : List Nat) (hb : ∀ b ∈ l, b < 256) :
    from_bytes l < 256 ^ l.length := by
  induction l with
  | nil => simp [from_bytes]
  | cons b t ih =>
    rw [from_bytes_cons]
    have hb1 : b < 256 := hb b (List.mem_cons_self _ _)
    have ht : from_bytes t < 256 ^ t.length :=
      ih (fun x hx => hb x (List.mem_cons_of_mem _ hx))
    have hmul : (b + 1) * 256 ^ t.length ≤ 256 * 256 ^ t.length :=
      Nat.mul_le_mul_right _ (by omega)
    have h2 : 256 * 256 ^ t.length = 256 ^ (b :: t).length := by
      simp [List.length_cons, Nat.pow_succ]; ring
    calc b * 256 ^ t.length + from_bytes t < (b + 1) * 256 ^ t.length := by
          have := Nat.one_mul (256 ^ t.length)
          nlinarith
      _ ≤ 256 * 256 ^ t.length := hmul
      _ = 256 ^ (b :: t).length := h2

lemma pow256_eq (n : Nat) : (256 : Nat) ^ n = 2 ^ (8 * n) := by
  rw [Nat.pow_mul]

/-- Bit `k` of a big-endian byte string is bit `k % 8` of the byte
`k / 8` positions from the end. -/
lemma from_bytes_testBit (l : List Nat) :
    (∀ b ∈ l, b < 256) → ∀ k : Nat,
    Nat.testBit (from_bytes l) k =
      if k < 8 * l.length then
        Nat.testBit (l.getD (l.length - 1 - k / 8) 0) (k % 8)
      else false := by
  induction l with
  | nil => intro _ k; simp [from_bytes]
  | cons b t ih =>
    intro hb k
    have hb1 : b < 256 := hb b (List.mem_cons_self _ _)
    have hbt : ∀ x ∈ t, x < 256 := fun x hx => hb x (List.mem_cons_of_mem _ hx)
    have hlt : from_bytes t < 2 ^ (8 * t.length) := by
      rw [← pow256_eq]; exact from_bytes_lt t hbt
    have hcons : from_bytes (b :: t) = 2 ^ (8 * t.length) * b + from_bytes t := by
      rw [from_bytes_cons, pow256_eq]; ring
    rw [hcons, Nat.testBit_mul_pow_two_add b hlt k]
    rcases Nat.lt_or_ge k (8 * t.length) with hk | hk
    · rw [if_pos hk, ih hbt k, if_pos hk, if_pos (by simp [List.length_cons]; omega)]
      have hdiv : k / 8 < t.length := by omega
      have hidx : (b :: t).length - 1 - k / 8 = (t.length - 1 - k / 8) + 1 := by
        simp [List.length_cons]; omega
      rw [hidx, List.getD_cons_succ]
    · rw [if_neg (by omega)]
      rcases Nat.lt_or_ge k (8 * (b :: t).length) with hk2 | hk2
      · rw [if_pos hk2]
        have hdiv : k / 8 = t.length := by simp [List.length_cons] at hk2; omega
        have hidx : (b :: t).length - 1 - k / 8 = 0 := by
          simp [List.length_cons]; omega
        rw [hidx, List.getD_cons_zero]
        have hmod : k % 8 = k - 8 * t.length := by omega
        rw [hmod]
      · rw [if_neg (by omega)]
        apply Nat.testBit_lt_two_pow
        calc b < 2 ^ 8 := hb1
          _ ≤ 2 ^ (k - 8 * t.length) := Nat.pow_le_pow_right (by omega)
                (by simp [List.length_cons] at hk2; omega)

/-- Bit `k` of the spec-side value `bitsVal buffer offset n` is the buffer bit
`offset + n - 1 - k` (MSB first). -/
lemma bitsVal_testBit (buffer : List Nat) (offset : Nat) :
    ∀ (n k : Nat),
    (bitsVal buffer offset n).testBit k =
      (decide (k < n) && bufBit buffer (offset + n - 1 - k)) := by
  intro n
  induction n with
  | zero => intro k; simp [bitsVal]
  | succ n ih =>
    intro k
    have hval : bitsVal buffer offset (n + 1) =
        2 * bitsVal buffer offset n +
          (if bufBit buffer (offset + n) then 1 else 0) := rfl
    cases k with
    | zero =>
      rw [hval, Nat.testBit_zero]
      have hmod : (2 * bitsVal buffer offset n +
          (if bufBit buffer (offset + n) then 1 else 0)) % 2 =
          (if bufBit buffer (offset + n) then 1 else 0) := by
        rcases Bool.dichotomy (bufBit buffer (offset + n)) with h | h
        all_goals simp [h, Nat.add_mul_mod_self_left]
        all_goals omega
      rw [hmod]
      have hidx : offset + (n + 1) - 1 - 0 = offset + n := by omega
      rw [hidx]
      rcases Bool.dichotomy (bufBit buffer (offset + n)) with h | h
      all_goals simp [h]
    | succ k =>
      rw [hval, Nat.testBit_add_one]
      have hdiv : (2 * bitsVal buffer offset n +
          (if bufBit buffer (offset + n) then 1 else 0)) / 2 =
          bitsVal buffer offset n := by
        rcases Bool.dichotomy (bufBit buffer (offset + n)) with h | h
        all_goals simp [h]
        all_goals omega
      rw [hdiv, ih k]
      by_cases hk : k < n
      · have hidx : offset + n - 1 - k = offset + (n + 1) - 1 - (k + 1) := by omega
        simp [hk, Nat.succ_lt_succ hk, hidx]
      · simp [hk, fun h => hk (Nat.lt_of_succ_lt_succ h)]

lemma slice_getD (buffer : List Nat) (s n i : Nat) (hi : i < n)
    (_hn : s + n ≤ buffer.length) :
    ((buffer.drop s).take n).getD i 0 = buffer.getD (s + i) 0 := by
  rw [List.getD_eq_getElem?_getD, List.getD_eq_getElem?_getD,
      List.getElem?_take_of_lt hi, List.getElem?_drop]

lemma slice_length (buffer : List Nat) (s n : Nat) (hn : s + n ≤ buffer.length) :
    ((buffer.drop s).take n).length = n := by
  simp [List.length_take, List.length_drop]; omega

/-- The masked-shift expression computed by `extract_from_buffer` equals the
spec-side MSB-first bit slice. -/
lemma extract_bits_eq (buffer : List Nat) (offset l : Nat)
    (hb : ∀ b ∈ buffer, b < 256) (h1 : 1 ≤ l)
    (h2 : offset + l ≤ 8 * buffer.length) :
    (from_bytes ((buffer.drop (offset / 8)).take
          ((offset + l - 1) / 8 + 1 - offset / 8)) >>>
        (((offset + l - 1) / 8 + 1 - offset / 8) * 8 - offset % 8 - l)) &&&
      (2 ^ l - 1) = bitsVal buffer offset l := by
  set s := offset / 8 with hs
  set e := (offset + l - 1) / 8 + 1 with he
  set shift := (e - s) * 8 - offset % 8 - l with hshift
  have heLen : e ≤ buffer.length := by omega
  have hse : s ≤ e := by omega
  have hsliceLen : ((buffer.drop s).take (e - s)).length = e - s :=
    slice_length buffer s (e - s) (by omega)
  have hsliceMem : ∀ b ∈ (buffer.drop s).take (e - s), b < 256 := fun b hbm =>
    hb b ((List.drop_sublist s buffer).subset ((List.take_sublist _ _).subset hbm))
  apply Nat.eq_of_testBit_eq
  intro k
  rw [Nat.testBit_and, Nat.testBit_two_pow_sub_one, Nat.testBit_shiftRight,
      bitsVal_testBit]
  by_cases hkl : k < l
  · rw [from_bytes_testBit _ hsliceMem (shift + k), hsliceLen]
    have hin : shift + k < 8 * (e - s) := by omega
    rw [if_pos hin]
    set j := offset + l - 1 - k with hj
    have hq8 : j = 8 * (j / 8) + j % 8 := (Nat.div_add_mod j 8).symm ▸ by omega
    have hqs : s ≤ j / 8 := by omega
    have hqe : j / 8 < e := by omega
    have hkey : shift + k = 8 * e - 1 - j := by omega
    have hdivq : (shift + k) / 8 = e - 1 - j / 8 := by omega
    have hmodr : (shift + k) % 8 = 7 - j % 8 := by omega
    have hidx : e - s - 1 - (e - 1 - j / 8) = j / 8 - s := by omega
    rw [hdivq, hmodr, hidx,
        slice_getD buffer s (e - s) (j / 8 - s) (by omega) (by omega)]
    have hsq : s + (j / 8 - s) = j / 8 := by omega
    rw [hsq]
    simp [bufBit, hkl]
  · simp [hkl]

/-- Correctness of `extractCore`: it computes exactly the spec-side value, sign-extended from the
leading bit when `signed`. -/
lemma extractCore_eq (buffer : List Nat) (offset l : Nat) (signed : Bool)
    (hb : ∀ b ∈ buffer, b < 256) (h1 : 1 ≤ l)
    (h2 : offset + l ≤ 8 * buffer.length) :
    extractCore buffer offset l signed =
      .ok (if signed && bufBit buffer offset then
             (bitsVal buffer offset l : Int) - 2 ^ l
           else (bitsVal buffer offset l : Int)) := by
  simp only [extractCore]
  rw [if_neg (by omega : ¬ (offset + l > buffer.length * 8))]
  rw [extract_bits_eq buffer offset l hb h1 h2]
  have hhigh : (bitsVal buffer offset l).testBit (l - 1) = bufBit buffer offset := by
    rw [bitsVal_testBit]
    have h1' : l - 1 < l := by omega
    have h0 : offset + l - 1 - (l - 1) = offset := by omega
    simp [h1', h0]
  rw [hhigh]
  by_cases h : signed && bufBit buffer offset
  all_goals simp [h]

/-! ## Claim theorems -/

/-- C3 (confirmed): bit extraction correctness.  For every byte buffer,
`bit_offset` and `bit_length` with `bit_offset + bit_length ≤ 8·len(buffer)`,
`extract_from_buffer` returns the integer formed by the `bit_length` bits
starting at `bit_offset` (bits numbered MSB-first within each byte),
sign-extended from the high bit when `signed`; whenever
`bit_offset + bit_length > 8·len(buffer)` it fails with an error. -/
theorem c3_extract_from_buffer_correct (buffer : List Nat) (offset l : Nat)
    (signed : Bool) (hb : ∀ b ∈ buffer, b < 256) :
    (1 ≤ l → offset + l ≤ 8 * buffer.length →
      extract_from_buffer buffer offset (some l) signed =
        .ok (if signed && bufBit buffer offset then
               (bitsVal buffer offset l : Int) - 2 ^ l
             else (bitsVal buffer offset l : Int))) ∧
    (8 * buffer.length < offset + l →
      ∃ e, extract_from_buffer buffer offset (some l) signed = .error e) := by
  constructor
  · intro h1 h2
    have hoff : ¬ offset ≥ buffer.length * 8 := by omega
    have hl : ¬ l < 1 := by omega
    simp only [extract_from_buffer, if_neg hoff, if_neg hl]
    exact extractCore_eq buffer offset l signed hb h1 h2
  · intro hgt
    by_cases hoff : offset ≥ buffer.length * 8
    · exact ⟨"Invalid offset", by simp only [extract_from_buffer, if_pos hoff]⟩
    · by_cases hl : l < 1
      · exact ⟨"Invalid length",
          by simp only [extract_from_buffer, if_neg hoff, if_pos hl]⟩
      · exact ⟨"Bit offset + length exceeds buffer size.", by
          simp only [extract_from_buffer, if_neg hoff, if_neg hl, extractCore]
          rw [if_pos (by omega)]⟩

/-- Witness for C3: bits 1..3 of `0xA5 = 0b10100101` are `010`, value 2; and a
3-bit read at offset 6 of a 1-byte buffer fails. -/
theorem c3_extract_from_buffer_witness :
    extract_from_buffer [165] 1 (some 3) false = .ok 2 ∧
    ∃ e, extract_from_buffer [165] 6 (some 3) false = .error e := by
  constructor
  · have h := (c3_extract_from_buffer_correct [165] 1 3 false (by decide)).1
      (by decide) (by decide)
    rw [h]; rfl
  · exact (c3_extract_from_buffer_correct [165] 6 3 false (by decide)).2 (by decide)

/-- C1 (code_bug): the round-trip law fails for data fields because
`data_field.decode` returns the integer formed by the data bits (it calls
`extract_from_buffer` without `as_buffer=True`), contradicting its own
docstring (which declares a byte-string return) and the repository tests.
The distinct conforming byte values `b"\x00"` and `b"\x00\x00"` encode to
distinct buffers whose decodings are the same integer `0`, so no decode of
the encoded form can return a value equal to both originals. -/
theorem c1_data_field_decode_returns_int :
    df_encode 4 false [0] [] 0 = .ok ([1, 0], 16) ∧
    df_encode 4 false [0, 0] [] 0 = .ok ([2, 0, 0], 24) ∧
    df_decode 4 false [1, 0] 0 = .ok ((0 : Int), 16) ∧
    df_decode 4 false [2, 0, 0] 0 = .ok ((0 : Int), 24) ∧
    ([0] : List Nat) ≠ [0, 0] :=
  ⟨rfl, rfl, rfl, rfl, by decide⟩

/-- C2 (code_bug): the bitmaskarray wire layout and popcount law are violated
by the source.  At the exact input of the repository test
`test_bitmaskarray_field` (size 3, enum case1/case2/case3, two uint4 columns,
value `{case1: [{successes: 3, failures: 1}]}`), encode raises
`Row 0 missing column keys` because the loop iterates the dict *keys* as rows;
even for an empty value it raises a TypeError because line 198 drops the
required `buffer` argument; and decode of any buffer (here the 2-byte buffer
the test expects) raises a TypeError unpacking the integer returned by
`extract_from_buffer`. -/
theorem c2_bitmaskarray_encode_decode_broken :
    bma_encodeSt ⟨3, [(0, "case1"), (1, "case2"), (2, "case3")],
        [⟨"successes", 4, false⟩, ⟨"failures", 4, false⟩]⟩
        [("case1", [[("successes", 3), ("failures", 1)]])] [] 0 =
      (.error "Row 0 missing column keys", []) ∧
    bma_encodeSt ⟨3, [(0, "case1"), (1, "case2"), (2, "case3")],
        [⟨"successes", 4, false⟩, ⟨"failures", 4, false⟩]⟩ [] [] 0 =
      (.error "append_bits_to_buffer missing 1 required positional argument: buffer",
       []) ∧
    bma_decode ⟨3, [(0, "case1"), (1, "case2"), (2, "case3")],
        [⟨"successes", 4, false⟩, ⟨"failures", 4, false⟩]⟩ [38, 32] 0 =
      .error "cannot unpack non-iterable int object" :=
  ⟨rfl, rfl, rfl⟩

/-- C4 counterexample: a non-fixed string field of size 2 encodes the 3-char
value "abc" successfully (silently truncated to "ab" behind a length prefix
of 2), and a non-fixed data field of size 2 encodes a 3-byte value
successfully — refuting the claim that oversize values of non-fixed fields
fail with an error. -/
theorem c4_oversize_encode_succeeds_counterexample :
    sf_encode 2 false ['a', 'b', 'c'] [] 0 = .ok ([2, 97, 98], 24) ∧
    df_encode 2 false [0, 1, 2] [] 0 = .ok ([2, 0, 1], 24) :=
  ⟨rfl, rfl⟩

lemma trunc_take (size : Nat) {α : Type} (v : List α) :
    (if v.length > size then v.take size else v) = v.take size := by
  by_cases h : v.length > size
  · rw [if_pos h]
  · rw [if_neg h, List.take_of_length_le (by omega)]

/-- C4 (corrected): for string and data fields, fixed or not, an oversize
value is silently truncated to the first `size` characters/bytes — encoding a
value and encoding its `size`-truncation are indistinguishable, and no
oversize error is ever raised. -/
theorem c4_oversize_truncation_amended (size : Nat) (fixed : Bool)
    (v : List Char) (d : List Nat) (buffer : List Nat) (offset : Nat) :
    sf_encode size fixed v buffer offset =
      sf_encode size fixed (v.take size) buffer offset ∧
    df_encode size fixed d buffer offset =
      df_encode size fixed (d.take size) buffer offset := by
  constructor
  · simp only [sf_encode, trunc_take, List.take_take, Nat.min_self, ite_self]
  · simp only [df_encode, trunc_take, List.take_take, Nat.min_self, ite_self]

lemma getD_append_len (l : List Nat) (a : Nat) :
    (l ++ [a]).getD l.length 0 = a := by
  induction l with
  | nil => rfl
  | cons b t ih =>
    simp only [List.cons_append, List.length_cons, List.getD_cons_succ]
    exact ih

lemma set_append_len (l : List Nat) (a c : Nat) :
    (l ++ [a]).set l.length c = l ++ [c] := by
  induction l with
  | nil => rfl
  | cons b t ih =>
    simp only [List.cons_append, List.length_cons, List.set_cons_succ]
    rw [ih]

/-- Appending a single 1-bit at the current end of a buffer grows it by one
byte whose MSB is set. -/
lemma append_one_bit_at_end (buffer : List Nat) :
    append_bits_to_buffer [1] buffer (8 * buffer.length) =
      .ok (buffer ++ [128]) := by
  cases buffer with
  | nil => rfl
  | cons b t =>
    simp only [append_bits_to_buffer]
    rw [if_neg (by simp)]
    rw [if_neg (by simp : ¬ (b :: t).length = 0)]
    rw [if_neg (by omega : ¬ 8 * (b :: t).length > (b :: t).length * 8)]
    have hreq : (8 * (b :: t).length + [1].length + 7) / 8 = (b :: t).length + 1 := by
      simp only [List.length_cons, List.length_nil]
      omega
    rw [hreq]
    have hpad : padTo (b :: t) ((b :: t).length + 1) = (b :: t) ++ [0] := by
      simp [padTo]
    rw [hpad]
    simp only [writeBits, writeBit, if_true]
    have hdiv : 8 * (b :: t).length / 8 = (b :: t).length := by omega
    have hmod : 7 - 8 * (b :: t).length % 8 = 7 := by omega
    rw [hdiv, hmod, getD_append_len]
    have hor : (0 : Nat) ||| 1 <<< 7 = 128 := rfl
    rw [hor, set_append_len]

/-- C5 counterexample: a bitmaskarray encode that fails with
`Invalid value.` nevertheless leaves the presence bit it wrote in the buffer
passed by the caller — the empty buffer comes back as `[0x80]`, refuting the
claim that a failed encode leaves the buffer bit-for-bit unchanged. -/
theorem c5_failed_encode_mutates_counterexample :
    bma_encodeSt ⟨3, [(0, "case1")], [⟨"s", 4, true⟩]⟩ [("case1", [])] [] 0 =
      (.error "Invalid value.", [128]) ∧ ([128] : List Nat) ≠ [] :=
  ⟨rfl, by decide⟩

/-- C5 (corrected): encoders mutate the buffer of the caller in place rather
than copy-and-swap.  For every initial buffer, the failing bitmaskarray
encode above first appends the presence bit of its optional column to that
buffer, which therefore differs from its initial state when the error is
returned. -/
theorem c5_failed_encode_buffer_state_amended (buffer : List Nat) :
    bma_encodeSt ⟨3, [(0, "case1")], [⟨"s", 4, true⟩]⟩ [("case1", [])]
        buffer (8 * buffer.length) =
      (.error "Invalid value.", buffer ++ [128]) ∧
    buffer ++ [128] ≠ buffer := by
  constructor
  · have hcol : bmaColLoop [⟨"s", 4, true⟩] 1 0 buffer (8 * buffer.length) [] 0 =
        (.error "Invalid value.", buffer ++ [128]) := by
      simp only [bmaColLoop]
      rw [append_one_bit_at_end]
      simp [uint_encode_val]
    simp only [bma_encodeSt, List.map_cons, List.map_nil]
    rw [show bmaBitmask [(0, "case1")] ["case1"] = Except.ok 1 from rfl]
    simp only [bmaRowLoop, List.length_cons, List.length_nil]
    rw [hcol]
  · intro h
    have hl := congrArg List.length h
    simp at hl

/-- C6 counterexample: a Message constructed with the default flags
(`coap_compatible=true`) and `message_key = 0 < 49152` does not fail — the
setter assigns the key and merely emits a warning. -/
theorem c6_key_conflict_warns_counterexample :
    message_key_set true false false 0 =
      .ok (0, ["message_key conflict with CoAP compatibility"]) := rfl

/-- C6 (corrected): `message_key` range conflicts produce `warnings.warn`
calls, not errors.  For every key in `0..65535` the setter succeeds and
assigns the key, emitting the matching warning for a CoAP-range conflict, a
Viasat-reserved conflict, or a NIMO-compatibility conflict; only keys outside
`0..65535` raise. -/
theorem c6_message_key_lenient_amended (v : Int) :
    (0 ≤ v → v < 49152 →
      message_key_set true false false v =
        .ok (v.toNat, ["message_key conflict with CoAP compatibility"])) ∧
    (65279 < v → v < 65536 →
      message_key_set true false false v =
        .ok (v.toNat, ["message_key conflict with Viasat reserved range"])) ∧
    (0 ≤ v → v < 32768 →
      message_key_set true false true v =
        .ok (v.toNat, ["message_key conflict with CoAP compatibility",
                       "message_key conflict with NIMO compatibility"])) ∧
    ((v < 0 ∨ 65536 ≤ v) →
      message_key_set true false false v =
        .error "message_key must be a 16-bit unsigned integer") := by
  refine ⟨?_, ?_, ?_, ?_⟩
  · intro h1 h2
    have hv : ¬ (v < 0 ∨ 65536 ≤ v) := by omega
    simp only [message_key_set, if_neg hv]
    rw [if_pos (by exact ⟨trivial, h2⟩), if_neg (by rintro ⟨-, h⟩; omega),
        if_neg (by rintro ⟨h, -⟩; simp at h)]
    rfl
  · intro h1 h2
    have hv : ¬ (v < 0 ∨ 65536 ≤ v) := by omega
    simp only [message_key_set, if_neg hv]
    rw [if_neg (by rintro ⟨-, h⟩; omega), if_pos (by exact ⟨by simp, h1⟩),
        if_neg (by rintro ⟨h, -⟩; simp at h)]
    rfl
  · intro h1 h2
    have hv : ¬ (v < 0 ∨ 65536 ≤ v) := by omega
    simp only [message_key_set, if_neg hv]
    rw [if_pos (by exact ⟨trivial, by omega⟩), if_neg (by rintro ⟨-, h⟩; omega),
        if_pos (by exact ⟨trivial, Or.inl h2⟩)]
    rfl
  · intro hv
    simp only [message_key_set, if_pos hv]

/-- Witness for C6: the amended statement applied at key 0. -/
theorem c6_message_key_lenient_witness :
    message_key_set true false false 0 =
      .ok ((0 : Int).toNat, ["message_key conflict with CoAP compatibility"]) :=
  (c6_message_key_lenient_amended 0).1 (by norm_num) (by norm_num)

/-- C7 (confirmed): appending a message whose name, or whose
(message_key, direction) pair, duplicates an existing member fails with an
error and leaves the registry unchanged; and every registry reachable by
repeated successful appends from the empty registry has duplicate-free name
and (message_key, direction) indices. -/
theorem c7_registry_unique_append (reg : List Msg) (m : Msg)
    (hreach : Reachable reg) :
    ((∃ mc ∈ reg, mc.name = m.name ∨
        (mc.message_key = m.message_key ∧ mc.direction = m.direction)) →
      (messages_appendSt reg m).2 = reg ∧
        ∃ e, (messages_appendSt reg m).1 = Except.error e) ∧
    (reg.map Msg.name).Nodup ∧
      (reg.map (fun x => (x.message_key, x.direction))).Nodup := by
  constructor
  · rintro ⟨mc, hmem, hdup⟩
    unfold messages_appendSt
    by_cases h1 : reg.any (fun x => decide (x.message_key = m.message_key) &&
        decide (x.direction = m.direction))
    · rw [if_pos h1]; exact ⟨rfl, _, rfl⟩
    · rw [if_neg h1]
      by_cases h2 : reg.any (fun o => decide (o.name = m.name))
      · rw [if_pos h2]; exact ⟨rfl, _, rfl⟩
      · exfalso
        rcases hdup with hname | hkd
        · exact h2 (List.any_eq_true.mpr ⟨mc, hmem, by simp [hname]⟩)
        · exact h1 (List.any_eq_true.mpr ⟨mc, hmem, by simp [hkd.1, hkd.2]⟩)
  · induction hreach with
    | nil => simp
    | append reg' m' reg'' hr hok ih =>
      unfold messages_appendSt at hok
      by_cases h1 : reg'.any (fun x => decide (x.message_key = m'.message_key) &&
          decide (x.direction = m'.direction))
      · rw [if_pos h1] at hok
        exact absurd (congrArg Prod.fst hok) (by simp)
      · rw [if_neg h1] at hok
        by_cases h2 : reg'.any (fun o => decide (o.name = m'.name))
        · rw [if_pos h2] at hok
          exact absurd (congrArg Prod.fst hok) (by simp)
        · rw [if_neg h2] at hok
          have hreg : reg'' = reg' ++ [m'] := by
            have := congrArg Prod.snd hok
            simpa using this.symm
          subst hreg
          constructor
          · rw [List.map_append, List.nodup_append]
            refine ⟨ih.1, by simp, ?_⟩
            intro a ha hb
            rw [List.map_singleton, List.mem_singleton] at hb
            subst hb
            rcases List.mem_map.mp ha with ⟨x, hx, hxe⟩
            exact h2 (List.any_eq_true.mpr ⟨x, hx, by simp [hxe]⟩)
          · rw [List.map_append, List.nodup_append]
            refine ⟨ih.2, by simp, ?_⟩
            intro a ha hb
            rw [List.map_singleton, List.mem_singleton] at hb
            subst hb
            rcases List.mem_map.mp ha with ⟨x, hx, hxe⟩
            have hk : x.message_key = m'.message_key := by
              have := congrArg Prod.fst hxe; simpa using this
            have hd : x.direction = m'.direction := by
              have := congrArg Prod.snd hxe; simpa using this
            exact h1 (List.any_eq_true.mpr ⟨x, hx, by simp [hk, hd]⟩)

/-- Witness for C7: a reachable one-element registry rejects a same-name
append, unchanged, and has duplicate-free indices. -/
theorem c7_registry_unique_append_witness :
    (messages_appendSt [⟨"m1", 49152, true⟩] ⟨"m1", 49153, true⟩).2 =
        [⟨"m1", 49152, true⟩] ∧
    (∃ e, (messages_appendSt [⟨"m1", 49152, true⟩] ⟨"m1", 49153, true⟩).1 =
        Except.error e) ∧
    ([⟨"m1", 49152, true⟩].map Msg.name).Nodup := by
  have hreach : Reachable [⟨"m1", 49152, true⟩] :=
    Reachable.append [] ⟨"m1", 49152, true⟩ _ Reachable.nil rfl
  have h := c7_registry_unique_append [⟨"m1", 49152, true⟩] ⟨"m1", 49153, true⟩
    hreach
  have hdup : ∃ mc ∈ [(⟨"m1", 49152, true⟩ : Msg)],
      mc.name = (⟨"m1", 49153, true⟩ : Msg).name ∨
      (mc.message_key = (⟨"m1", 49153, true⟩ : Msg).message_key ∧
        mc.direction = (⟨"m1", 49153, true⟩ : Msg).direction) :=
    ⟨⟨"m1", 49152, true⟩, by simp, Or.inl rfl⟩
  exact ⟨(h.1 hdup).1, (h.1 hdup).2, h.2.1⟩

/-- C8 counterexample: under nim framing, a buffer whose first two bytes are
`00 00` carries the envelope key 0, which differs from the message codec key
49152 — yet decode succeeds, because `if message_key and ...` treats the key
0 as absent.  This refutes the claim for the key value 0. -/
theorem c8_zero_key_bypasses_mismatch_counterexample :
    decode_message ⟨"testMsg", 49152, [⟨"x", 8, false⟩]⟩ [0, 0, 42] none true =
      .ok ("testMsg", [("x", 42)]) := rfl

/-- C8 (corrected): whenever a Message codec and a *nonzero* key are both
present — caller-supplied, or derived from the nim envelope — a key differing
from the codec key makes decoding fail; the key 0 is falsy in the source
check and bypasses the mismatch test. -/
theorem c8_nonzero_key_mismatch_amended (message : MsgCodec)
    (buffer : List Nat) (k : Nat) (hne : buffer ≠ []) (hk0 : k ≠ 0)
    (hkey : k ≠ message.message_key) (_hk16 : k ≤ 65535) :
    decode_message message buffer (some k) false =
        .error "Mismatch between provided/derived message_key" ∧
    (from_bytes (buffer.take 2) = k →
      decode_message message buffer none true =
        .error "Mismatch between provided/derived message_key") := by
  have hlen : ¬ buffer.length = 0 := by
    intro h; exact hne (List.length_eq_zero.mp h)
  constructor
  · simp [decode_message, hlen, hk0, hkey]
  · intro hk
    simp [decode_message, hlen, hk, hk0, hkey]

/-- Witness for C8: a caller-supplied key 5 against a codec with key 49152. -/
theorem c8_nonzero_key_mismatch_witness :
    decode_message ⟨"testMsg", 49152, [⟨"x", 8, false⟩]⟩ [192, 1, 42]
        (some 5) false = .error "Mismatch between provided/derived message_key" :=
  (c8_nonzero_key_mismatch_amended ⟨"testMsg", 49152, [⟨"x", 8, false⟩]⟩
    [192, 1, 42] 5 (by decide) (by decide) (by decide) (by decide)).1

/-- C9 (confirmed): item assignment on a CodecList by string key, with a
value of the correct codec class, is a silent no-op (no error, list
unchanged) whether or not the name matches a member; only integer-index
assignment stores the value. -/
theorem c9_setitem_by_name_noop (l : List CodecItem) (s : String)
    (v : CodecItem) :
    codecList_setitemSt l (.inl s) v = (.ok (), l) ∧
    (∀ i, i < l.length →
      codecList_setitemSt l (.inr i) v = (.ok (), l.set i v)) := by
  constructor
  · rfl
  · intro i hi
    simp [codecList_setitemSt, hi]

/-- Witness for C9: assignment by an existing name leaves the list unchanged;
assignment at index 0 stores the value. -/
theorem c9_setitem_by_name_noop_witness :
    codecList_setitemSt [⟨"a"⟩, ⟨"b"⟩] (.inl "a") ⟨"z"⟩ =
        (.ok (), [⟨"a"⟩, ⟨"b"⟩]) ∧
    codecList_setitemSt [⟨"a"⟩, ⟨"b"⟩] (.inr 0) ⟨"z"⟩ =
        (.ok (), [⟨"z"⟩, ⟨"b"⟩]) := by
  refine ⟨(c9_setitem_by_name_noop [⟨"a"⟩, ⟨"b"⟩] "a" ⟨"z"⟩).1, ?_⟩
  have h := (c9_setitem_by_name_noop [⟨"a"⟩, ⟨"b"⟩] "a" ⟨"z"⟩).2 0 (by decide)
  simpa using h

/-- C10 (confirmed): `BitArray.from_int(0)` with the default length computes
a minimum length of 0, which is rejected with an error, so converting the
integer 0 with the default length always fails; and bitmaskarray decode of a
buffer holding an all-zero mask fails (in the source it fails even earlier,
unpacking the integer returned by `extract_from_buffer`), so it can never
produce an empty mapping. -/
theorem c10_from_int_zero_errors :
    bitArray_from_int 0 none = .error "Length must be a positive integer." ∧
    bma_decode ⟨3, [(0, "case1"), (1, "case2"), (2, "case3")],
        [⟨"successes", 4, false⟩, ⟨"failures", 4, false⟩]⟩ [0] 0 =
      .error "cannot unpack non-iterable int object" :=
  ⟨rfl, rfl⟩

end Pynimcodec
